import Mathlib

/-!
Verification of the Tuya serial-protocol decoder (`tuya_dump_ex.py`).

Bytes are modelled as natural numbers; where a claim depends on values
actually being bytes, the hypothesis `< 256` is carried explicitly.
The Python dictionaries returned by the decoder are modelled as inductive
result types, one constructor per distinct dictionary shape the source
can return.
-/

namespace TuyaDump

/-- The fixed two-byte frame marker `b'\x55\xaa'`. -/
def PACKET_MARKER : List Nat := [0x55, 0xaa]

/-- Embeds `calculate_checksum(data)`: `sum(data) % 256`. -/
def calculate_checksum (data : List Nat) : Nat :=
  data.sum % 256

/-- Embeds `struct.unpack('>BBH', s)`: succeeds exactly on a 4-byte input,
yielding two unsigned chars and one big-endian unsigned short. -/
def unpack_BBH : List Nat → Option (Nat × Nat × Nat)
  | [a, b, c, d] => some (a, b, c * 256 + d)
  | _ => none

/-- Embeds `struct.unpack('>BHB', s)`: succeeds exactly on a 4-byte input,
yielding an unsigned char, a big-endian unsigned short, and an unsigned char. -/
def unpack_BHB : List Nat → Option (Nat × Nat × Nat)
  | [a, b, c, d] => some (a, b * 256 + c, d)
  | _ => none

/-- Embeds `struct.unpack('>i', s)[0]` on a 4-byte input: big-endian signed
32-bit integer. -/
def int32BE (b : List Nat) : Int :=
  let u : Nat := b.foldl (fun acc x => acc * 256 + x) 0
  if u < 2 ^ 31 then (u : Int) else (u : Int) - 2 ^ 32

/-- Embeds `int.from_bytes(s, 'big')` and `struct.unpack('>I', s)[0]`: big-endian
unsigned integer. -/
def uintBE (b : List Nat) : Nat :=
  b.foldl (fun acc x => acc * 256 + x) 0

/-- The `decoded_value` a data unit carries: either a successfully decoded
typed value, or the per-unit error dictionary
`{"error": ..., "raw_value": dp_value}` the source builds for a length
mismatch or an unknown type tag. The UTF-8 text produced for type 3 with
`errors='ignore'` is a total function of the raw bytes and never affects
control flow, so the `str` variant retains the raw bytes. -/
inductive DPValue where
  | raw (bytes : List Nat)
  | boolean (b : Bool)
  | intVal (i : Int)
  | str (bytes : List Nat)
  | enumVal (n : Nat)
  | bitmap (n : Nat)
  | invalidLenValue (dp_length : Nat) (raw_value : List Nat)
  | invalidLenEnum (dp_length : Nat) (raw_value : List Nat)
  | invalidLenBitmap (dp_length : Nat) (raw_value : List Nat)
  | unknownType (dp_type : Nat) (raw_value : List Nat)
  deriving DecidableEq, Repr

/-- One element of the list returned by `parse_data_units`: either one of
the terminal error dictionaries, or a decoded data-unit record. -/
inductive DPEntry where
  | incompleteUnit (raw_data : List Nat)
  | headerUnpackFailed (raw_data : List Nat)
  | incompleteValue (dp_id dp_type dp_length : Nat) (raw_data : List Nat)
  | unit (dp_id dp_type dp_length : Nat) (dp_value : DPValue) (raw_value : List Nat)
  deriving DecidableEq, Repr

/-- The type-tag dispatch on `dp_type` (lines 54-79 of the source) that
turns the raw `dp_value` bytes into the `decoded_value`. -/
def decode_dp_value (dp_type dp_length : Nat) (dp_value : List Nat) : DPValue :=
  if dp_type = 0 then .raw dp_value
  else if dp_type = 1 then .boolean (decide (dp_value = [1]))
  else if dp_type = 2 then
    (if dp_length = 4 then .intVal (int32BE dp_value)
     else .invalidLenValue dp_length dp_value)
  else if dp_type = 3 then .str dp_value
  else if dp_type = 4 then
    (if dp_length = 1 then .enumVal (uintBE dp_value)
     else .invalidLenEnum dp_length dp_value)
  else if dp_type = 5 then
    (if dp_length = 4 then .bitmap (uintBE dp_value)
     else .invalidLenBitmap dp_length dp_value)
  else .unknownType dp_type dp_value

/-- The `while offset < len(data)` loop of `parse_data_units`, with the
cursor made explicit. -/
def parseLoop (data : List Nat) (offset : Nat) : List DPEntry :=
  if h : offset < data.length then
    if data.length < offset + 4 then
      [.incompleteUnit (data.drop offset)]
    else
      match unpack_BBH ((data.drop offset).take 4) with
      | none => [.headerUnpackFailed (data.drop offset)]
      | some (dp_id, dp_type, dp_length) =>
        if data.length < offset + 4 + dp_length then
          [.incompleteValue dp_id dp_type dp_length (data.drop offset)]
        else
          let dp_value := (data.drop (offset + 4)).take dp_length
          .unit dp_id dp_type dp_length
              (decode_dp_value dp_type dp_length dp_value) dp_value
            :: parseLoop data (offset + 4 + dp_length)
  else []
termination_by data.length - offset
decreasing_by omega

/-- Embeds `parse_data_units(data)`. -/
def parse_data_units (data : List Nat) : List DPEntry :=
  parseLoop data 0

/-- The result of `parse_tuya_packet`: either one of the error
dictionaries, or the valid-packet dictionary. -/
inductive PacketResult where
  | tooShort (raw_data : List Nat)
  | headerUnparsable (raw_data : List Nat)
  | tooShortForLength (data_length : Nat) (raw_data : List Nat)
  | checksumMismatch (calculated received : Nat) (raw_data : List Nat)
  | packet (version command data_length : Nat) (data : List Nat)
      (checksum : Nat) (parsed_data_units : List DPEntry)
  deriving DecidableEq, Repr

/-- Embeds `parse_tuya_packet(packet_data)`. -/
def parse_tuya_packet (packet_data : List Nat) : PacketResult :=
  if packet_data.length < 7 then .tooShort packet_data
  else
    match unpack_BHB ((packet_data.drop 2).take 4) with
    | none => .headerUnparsable packet_data
    | some (version, command, data_length) =>
      if packet_data.length < 6 + data_length + 1 then
        .tooShortForLength data_length packet_data
      else
        let data := (packet_data.drop 6).take data_length
        let received_checksum := packet_data.getD (6 + data_length) 0
        let calculated_checksum :=
          calculate_checksum (packet_data.take (6 + data_length))
        if calculated_checksum ≠ received_checksum then
          .checksumMismatch calculated_checksum received_checksum packet_data
        else
          .packet version command data_length data received_checksum
            (parse_data_units data)

/-- Index of the first occurrence of `PACKET_MARKER` in a byte list
(`buffer.find(PACKET_MARKER)`), or `none` when absent. -/
def findMarker : List Nat → Option Nat
  | [] => none
  | [_] => none
  | a :: b :: rest =>
    if a = 0x55 ∧ b = 0xaa then some 0
    else (findMarker (b :: rest)).map (· + 1)

/-- An event produced by one pass of the frame-extraction loop in
`read_and_hexdump_packets`: either an orphan-bytes diagnostic, or a
candidate frame handed to `parse_tuya_packet`. -/
inductive StreamEvent where
  | orphan (bytes : List Nat)
  | frame (bytes : List Nat)
  deriving DecidableEq, Repr

theorem findMarker_length_le : ∀ (l : List Nat) (m : Nat),
    findMarker l = some m → m + 2 ≤ l.length := by
  intro l
  induction l with
  | nil => intro m h; simp [findMarker] at h
  | cons a tail ih =>
    intro m h
    match tail with
    | [] => simp [findMarker] at h
    | b :: rest =>
      rw [findMarker] at h
      split at h
      · simp at h ⊢
        omega
      · simp only [Option.map_eq_some'] at h
        obtain ⟨m', hm', rfl⟩ := h
        have := ih m' hm'
        simp at this ⊢
        omega

/-- The `while PACKET_MARKER in buffer` drain loop of
`read_and_hexdump_packets`, as a pure function from the current buffer to
the emitted events and the retained buffer. -/
def drainBuffer (buffer : List Nat) : List StreamEvent × List Nat :=
  match h : findMarker buffer with
  | none => ([], buffer)
  | some m =>
    match findMarker (((buffer.drop m).drop 2)) with
    | none =>
      ((if 0 < m then [StreamEvent.orphan (buffer.take m)] else []) ++
        [StreamEvent.frame (PACKET_MARKER ++ (buffer.drop m).drop 2)], [])
    | some n =>
      ((if 0 < m then [StreamEvent.orphan (buffer.take m)] else []) ++
        StreamEvent.frame (PACKET_MARKER ++ ((buffer.drop m).drop 2).take n) ::
          (drainBuffer (((buffer.drop m).drop 2).drop n)).1,
       (drainBuffer (((buffer.drop m).drop 2).drop n)).2)
termination_by buffer.length
decreasing_by
  have := findMarker_length_le buffer m h
  simp only [List.length_drop]
  omega

/-- The candidate frames among a list of stream events: exactly the byte
lists passed to `parse_tuya_packet` by the extraction loop. -/
def candidateFrames (evs : List StreamEvent) : List (List Nat) :=
  evs.filterMap fun e =>
    match e with
    | .frame f => some f
    | .orphan _ => none

/-- Builds the well-formed frame for a given version, command and payload:
marker, version byte, big-endian command, declared length, payload, and
the checksum byte the decoder checks (the modular sum of everything
before it). -/
def mk_frame (version command : Nat) (payload : List Nat) : List Nat :=
  let body := 0x55 :: 0xaa :: version :: (command / 256) :: (command % 256) ::
    payload.length :: payload
  body ++ [calculate_checksum body]

/-- Whether a `DPEntry` is a decoded data-unit record (as opposed to one
of the terminal error dictionaries). -/
def DPEntry.isUnit : DPEntry → Bool
  | .unit _ _ _ _ _ => true
  | _ => false

/-! ### General helper lemmas -/

lemma getD_cons6_add (b0 b1 b2 b3 b4 b5 : Nat) (rest : List Nat) (k : Nat) :
    (b0 :: b1 :: b2 :: b3 :: b4 :: b5 :: rest).getD (6 + k) 0 = rest.getD k 0 := by
  have h : 6 + k = k + 6 := by omega
  rw [h]
  rfl

lemma take_cons6_add (b0 b1 b2 b3 b4 b5 : Nat) (rest : List Nat) (k : Nat) :
    (b0 :: b1 :: b2 :: b3 :: b4 :: b5 :: rest).take (6 + k) =
      b0 :: b1 :: b2 :: b3 :: b4 :: b5 :: rest.take k := by
  have h : 6 + k = k + 6 := by omega
  rw [h]
  rfl

lemma getD_append_singleton (l : List Nat) (x : Nat) :
    (l ++ [x]).getD l.length 0 = x := by
  induction l with
  | nil => rfl
  | cons a t ih =>
    simp only [List.cons_append, List.length_cons, List.getD_cons_succ]
    exact ih

lemma exists_cons6 (frame : List Nat) (h : 7 ≤ frame.length) :
    ∃ b0 b1 b2 b3 b4 b5 rest, frame = b0 :: b1 :: b2 :: b3 :: b4 :: b5 :: rest ∧
      rest ≠ [] := by
  match frame with
  | [] => simp at h
  | [_] => simp at h
  | [_, _] => simp at h
  | [_, _, _] => simp at h
  | [_, _, _, _] => simp at h
  | [_, _, _, _, _] => simp at h
  | [_, _, _, _, _, _] => simp at h
  | b0 :: b1 :: b2 :: b3 :: b4 :: b5 :: r0 :: rest =>
    exact ⟨b0, b1, b2, b3, b4, b5, r0 :: rest, rfl, by simp⟩

/-- Unfolding of `parse_tuya_packet` on a frame of length at least 7,
written with the first six bytes explicit. -/
lemma parse_tuya_packet_cons (b0 b1 b2 b3 b4 b5 : Nat) (rest : List Nat)
    (hr : rest ≠ []) :
    parse_tuya_packet (b0 :: b1 :: b2 :: b3 :: b4 :: b5 :: rest) =
      (if rest.length < b5 + 1 then
        PacketResult.tooShortForLength b5 (b0 :: b1 :: b2 :: b3 :: b4 :: b5 :: rest)
      else if calculate_checksum ((b0 :: b1 :: b2 :: b3 :: b4 :: b5 :: rest).take (6 + b5)) ≠
          rest.getD b5 0 then
        PacketResult.checksumMismatch
          (calculate_checksum ((b0 :: b1 :: b2 :: b3 :: b4 :: b5 :: rest).take (6 + b5)))
          (rest.getD b5 0) (b0 :: b1 :: b2 :: b3 :: b4 :: b5 :: rest)
      else
        PacketResult.packet b2 (b3 * 256 + b4) b5 (rest.take b5) (rest.getD b5 0)
          (parse_data_units (rest.take b5))) := by
  have hpos : 0 < rest.length := List.length_pos.mpr hr
  rw [parse_tuya_packet]
  have h1 : ¬ ((b0 :: b1 :: b2 :: b3 :: b4 :: b5 :: rest).length < 7) := by
    simp only [List.length_cons]
    omega
  rw [if_neg h1]
  have h2 : unpack_BHB (((b0 :: b1 :: b2 :: b3 :: b4 :: b5 :: rest).drop 2).take 4) =
      some (b2, b3 * 256 + b4, b5) := rfl
  rw [h2]
  dsimp only
  have h3 : (b0 :: b1 :: b2 :: b3 :: b4 :: b5 :: rest).length < 6 + b5 + 1 ↔
      rest.length < b5 + 1 := by
    simp only [List.length_cons]
    omega
  have h4 : (b0 :: b1 :: b2 :: b3 :: b4 :: b5 :: rest).getD (6 + b5) 0 =
      rest.getD b5 0 := by
    have : 6 + b5 = b5 + 6 := by omega
    rw [this]
    rfl
  have h5 : ((b0 :: b1 :: b2 :: b3 :: b4 :: b5 :: rest).drop 6) = rest := rfl
  by_cases hc : rest.length < b5 + 1
  · rw [if_pos (h3.mpr hc), if_pos hc]
  · rw [if_neg (fun hh => hc (h3.mp hh)), if_neg hc]
    simp only [h4, h5]

/-! ### Claims -/

/-- C6: `calculate_checksum` is a total pure function with
`calculate_checksum b = sum b mod 256` for every byte sequence `b`
(including the empty one), and its result lies in `[0, 255]`. -/
theorem calculate_checksum_spec (b : List Nat) :
    calculate_checksum b = b.sum % 256 ∧ calculate_checksum b ≤ 255 := by
  refine ⟨rfl, ?_⟩
  have h : b.sum % 256 < 256 := Nat.mod_lt _ (by norm_num)
  simp only [calculate_checksum]
  omega

/-- C7: on any frame of length at least 7, unpacking the header fields
(version at offset 2, big-endian command at offsets 3-4, declared length
at offset 5) structurally succeeds, so the "Failed to unpack header
fields" branch of `parse_tuya_packet` is unreachable once the initial
length check has passed. -/
theorem header_unpack_total (packet_data : List Nat)
    (h : 7 ≤ packet_data.length) :
    (∃ v c dl, unpack_BHB ((packet_data.drop 2).take 4) = some (v, c, dl)) ∧
    ∀ raw, parse_tuya_packet packet_data ≠ PacketResult.headerUnparsable raw := by
  obtain ⟨b0, b1, b2, b3, b4, b5, rest, rfl, hr⟩ := exists_cons6 _ h
  refine ⟨⟨b2, b3 * 256 + b4, b5, rfl⟩, ?_⟩
  intro raw
  rw [parse_tuya_packet_cons _ _ _ _ _ _ _ hr]
  split_ifs <;> simp

/-- C7 witness: the header of a concrete 7-byte frame unpacks. -/
theorem header_unpack_total_witness :
    7 ≤ ([0x55, 0xaa, 1, 2, 3, 0, 0] : List Nat).length ∧
    ((∃ v c dl,
        unpack_BHB ((([0x55, 0xaa, 1, 2, 3, 0, 0] : List Nat).drop 2).take 4) =
          some (v, c, dl)) ∧
      ∀ raw, parse_tuya_packet [0x55, 0xaa, 1, 2, 3, 0, 0] ≠
        PacketResult.headerUnparsable raw) :=
  ⟨by decide, header_unpack_total [0x55, 0xaa, 1, 2, 3, 0, 0] (by decide)⟩

/-- C1 counterexample: the frame `55 AA 00 00 00 00 FF` is accepted by
`parse_tuya_packet` as a valid Packet with received checksum `255`, yet
the sum of its VERSION-through-PAYLOAD bytes (offsets 2..5, marker
excluded) mod 256 is `0 ≠ 255`: the checksum the code verifies also
covers the two marker bytes. -/
theorem checksum_covers_marker_counterexample :
    parse_tuya_packet [0x55, 0xaa, 0, 0, 0, 0, 255] =
      PacketResult.packet 0 0 0 [] 255 [] ∧
    ((([0x55, 0xaa, 0, 0, 0, 0, 255] : List Nat).take 6).drop 2).sum % 256 ≠ 255 := by
  constructor
  · rw [show ([0x55, 0xaa, 0, 0, 0, 0, 255] : List Nat) =
        0x55 :: 0xaa :: 0 :: 0 :: 0 :: 0 :: [255] from rfl,
      parse_tuya_packet_cons _ _ _ _ _ _ _ (by simp)]
    norm_num [calculate_checksum]
    simp [parse_data_units, parseLoop]
  · decide

/-- C1 (amended): the checksum that `parse_tuya_packet` verifies covers
the frame bytes from offset 0 through the end of the payload — the
marker bytes INCLUDED — i.e. `frame[0 : 6+data_length]`: every accepted
frame's received checksum equals the sum of those bytes mod 256, and for
every frame passing both length checks the decoder rejects with the
checksum-mismatch error exactly when that equality fails. -/
theorem parse_checksum_covers_marker (frame : List Nat) :
    (∀ v c dl data cs units,
        parse_tuya_packet frame = PacketResult.packet v c dl data cs units →
          cs = (frame.take (6 + dl)).sum % 256) ∧
    (7 ≤ frame.length → 7 + frame.getD 5 0 ≤ frame.length →
      (parse_tuya_packet frame =
          PacketResult.checksumMismatch
            ((frame.take (6 + frame.getD 5 0)).sum % 256)
            (frame.getD (6 + frame.getD 5 0) 0) frame ↔
        (frame.take (6 + frame.getD 5 0)).sum % 256 ≠
          frame.getD (6 + frame.getD 5 0) 0)) := by
  constructor
  · intro v c dl data cs units hok
    by_cases h7 : 7 ≤ frame.length
    · obtain ⟨b0, b1, b2, b3, b4, b5, rest, rfl, hr⟩ := exists_cons6 _ h7
      rw [parse_tuya_packet_cons _ _ _ _ _ _ _ hr] at hok
      split_ifs at hok with h1 h2
      all_goals cases hok
      push_neg at h2
      exact h2.symm
    · rw [parse_tuya_packet, if_pos (by omega)] at hok
      cases hok
  · intro h7 hdl
    obtain ⟨b0, b1, b2, b3, b4, b5, rest, rfl, hr⟩ := exists_cons6 _ h7
    have hg5 : (b0 :: b1 :: b2 :: b3 :: b4 :: b5 :: rest).getD 5 0 = b5 := rfl
    rw [hg5] at hdl ⊢
    rw [getD_cons6_add]
    have hlen : ¬ rest.length < b5 + 1 := by
      simp only [List.length_cons] at hdl
      omega
    rw [parse_tuya_packet_cons _ _ _ _ _ _ _ hr, if_neg hlen]
    simp only [calculate_checksum]
    by_cases hc :
        ((b0 :: b1 :: b2 :: b3 :: b4 :: b5 :: rest).take (6 + b5)).sum % 256 ≠
          rest.getD b5 0
    · rw [if_pos hc]
      exact iff_of_true rfl hc
    · rw [if_neg hc]
      exact iff_of_false (by simp) hc

/-- C1 witness: the amended theorem applied to the concrete accepted
frame `55 AA 00 00 00 00 FF`, whose received checksum equals the
marker-inclusive byte sum mod 256. -/
theorem parse_checksum_covers_marker_witness :
    (255 : Nat) =
      (([0x55, 0xaa, 0, 0, 0, 0, 255] : List Nat).take (6 + 0)).sum % 256 :=
  (parse_checksum_covers_marker [0x55, 0xaa, 0, 0, 0, 0, 255]).1 0 0 0 [] 255 []
    (by
      rw [show ([0x55, 0xaa, 0, 0, 0, 0, 255] : List Nat) =
          0x55 :: 0xaa :: 0 :: 0 :: 0 :: 0 :: [255] from rfl,
        parse_tuya_packet_cons _ _ _ _ _ _ _ (by simp)]
      norm_num [calculate_checksum]
      simp [parse_data_units, parseLoop])

/-- C2: round-trip — building the well-formed frame for a version byte, a
2-byte command, and a payload of at most 255 bytes, and decoding it with
`parse_tuya_packet`, yields a successful Packet whose version, command,
data_length and data fields equal the inputs exactly. -/
theorem mk_frame_roundtrip (version command : Nat) (payload : List Nat)
    (hv : version < 256) (hc : command < 65536)
    (hp : payload.length ≤ 255) (hb : ∀ b ∈ payload, b < 256) :
    parse_tuya_packet (mk_frame version command payload) =
      PacketResult.packet version command payload.length payload
        (calculate_checksum (0x55 :: 0xaa :: version :: (command / 256) ::
          (command % 256) :: payload.length :: payload))
        (parse_data_units payload) := by
  set cs := calculate_checksum (0x55 :: 0xaa :: version :: (command / 256) ::
    (command % 256) :: payload.length :: payload) with hcs
  have hframe : mk_frame version command payload =
      0x55 :: 0xaa :: version :: (command / 256) :: (command % 256) ::
        payload.length :: (payload ++ [cs]) := by
    simp [mk_frame, hcs]
  rw [hframe, parse_tuya_packet_cons _ _ _ _ _ _ _ (by simp)]
  have hlen : ¬ (payload ++ [cs]).length < payload.length + 1 := by
    simp
  rw [if_neg hlen]
  have hgd : (payload ++ [cs]).getD payload.length 0 = cs :=
    getD_append_singleton payload cs
  have htk : (0x55 :: 0xaa :: version :: (command / 256) :: (command % 256) ::
      payload.length :: (payload ++ [cs])).take (6 + payload.length) =
      0x55 :: 0xaa :: version :: (command / 256) :: (command % 256) ::
        payload.length :: payload := by
    rw [take_cons6_add]
    rw [List.take_left]
  rw [hgd, htk, if_neg (by simp)]
  have hcmd : command / 256 * 256 + command % 256 = command := by
    have := Nat.div_add_mod command 256
    omega
  rw [hcmd, List.take_left]

/-- C2 witness: the round-trip at a concrete version, command and
payload. -/
theorem mk_frame_roundtrip_witness :
    (3 < 256 ∧ 258 < 65536 ∧ ([1, 1, 0, 1, 1] : List Nat).length ≤ 255 ∧
      ∀ b ∈ ([1, 1, 0, 1, 1] : List Nat), b < 256) ∧
    parse_tuya_packet (mk_frame 3 258 [1, 1, 0, 1, 1]) =
      PacketResult.packet 3 258 ([1, 1, 0, 1, 1] : List Nat).length [1, 1, 0, 1, 1]
        (calculate_checksum (0x55 :: 0xaa :: 3 :: (258 / 256) :: (258 % 256) ::
          ([1, 1, 0, 1, 1] : List Nat).length :: [1, 1, 0, 1, 1]))
        (parse_data_units [1, 1, 0, 1, 1]) :=
  ⟨⟨by decide, by decide, by decide, by decide⟩,
    mk_frame_roundtrip 3 258 [1, 1, 0, 1, 1] (by decide) (by decide) (by decide)
      (by decide)⟩

lemma set_cons6_add (b0 b1 b2 b3 b4 b5 : Nat) (rest : List Nat) (k a : Nat) :
    (b0 :: b1 :: b2 :: b3 :: b4 :: b5 :: rest).set (6 + k) a =
      b0 :: b1 :: b2 :: b3 :: b4 :: b5 :: rest.set k a := by
  have h : 6 + k = k + 6 := by omega
  rw [h]
  rfl

lemma take_set_comm (l : List Nat) (j n a : Nat) (h : j < n) :
    (l.set j a).take n = (l.take n).set j a := by
  induction l generalizing j n with
  | nil => simp
  | cons x t ih =>
    cases j with
    | zero =>
      cases n with
      | zero => omega
      | succ n => simp
    | succ j =>
      cases n with
      | zero => omega
      | succ n =>
        simp only [List.set_cons_succ, List.take_succ_cons]
        rw [ih j n (by omega)]

lemma sum_set_add_getD (l : List Nat) (j b : Nat) (hj : j < l.length) :
    (l.set j b).sum + l.getD j 0 = l.sum + b := by
  have h1 : (l.set j b).sum = (l.take j).sum + b + (l.drop (j + 1)).sum := by
    rw [List.set_eq_take_cons_drop b hj]
    simp only [List.sum_append, List.sum_cons]
    omega
  have h2 : l.sum = (l.take j).sum + l[j] + (l.drop (j + 1)).sum := by
    conv_lhs => rw [← List.take_append_drop j l, List.drop_eq_getElem_cons hj]
    simp only [List.sum_append, List.sum_cons]
    omega
  rw [List.getD_eq_getElem l 0 hj]
  omega

lemma getD_set_ne (l : List Nat) (i j a d : Nat) (h : i ≠ j) :
    (l.set i a).getD j d = l.getD j d := by
  rw [List.getD_eq_getElem?_getD, List.getD_eq_getElem?_getD,
    List.getElem?_set_ne h]

lemma getD_take_of_lt (l : List Nat) (n j : Nat) (hj : j < n) (hl : j < l.length) :
    (l.take n).getD j 0 = l.getD j 0 := by
  have hlen : j < (l.take n).length := by
    simp only [List.length_take]
    omega
  rw [List.getD_eq_getElem _ _ hlen, List.getD_eq_getElem _ _ hl]
  exact List.getElem_take l

/-- C3: mutating exactly one payload byte of a frame that
`parse_tuya_packet` accepts (replacing it by any different byte value)
makes the decoder return the checksum-mismatch error carrying both
checksum values — never a successful Packet. -/
theorem payload_mutation_checksum_mismatch (frame : List Nat)
    (v c dl : Nat) (data : List Nat) (cs : Nat) (units : List DPEntry)
    (hok : parse_tuya_packet frame = PacketResult.packet v c dl data cs units)
    (i : Nat) (hi : i < dl) (b : Nat) (hb : b < 256)
    (hbytes : ∀ x ∈ frame, x < 256)
    (hne : b ≠ frame.getD (6 + i) 0) :
    parse_tuya_packet (frame.set (6 + i) b) =
      PacketResult.checksumMismatch
        (((frame.set (6 + i) b).take (6 + dl)).sum % 256) cs
        (frame.set (6 + i) b) ∧
    ((frame.set (6 + i) b).take (6 + dl)).sum % 256 ≠ cs := by
  have h7 : 7 ≤ frame.length := by
    by_contra h
    rw [parse_tuya_packet, if_pos (by omega)] at hok
    cases hok
  obtain ⟨b0, b1, b2, b3, b4, b5, rest, rfl, hr⟩ := exists_cons6 _ h7
  rw [parse_tuya_packet_cons _ _ _ _ _ _ _ hr] at hok
  split_ifs at hok with h1 h2
  injection hok with e1 e2 e3 e4 e5 e6
  subst e1
  subst e2
  subst e3
  subst e4
  subst e5
  subst e6
  push_neg at h2
  -- facts about the original frame
  have hrest : b5 + 1 ≤ rest.length := by omega
  have hir : i < rest.length := by omega
  -- the mutated frame, byte `6+i` replaced
  rw [set_cons6_add]
  have hr' : rest.set i b ≠ [] := by
    intro h
    have := List.length_set rest i b
    rw [h] at this
    simp at this
    omega
  rw [parse_tuya_packet_cons _ _ _ _ _ _ _ hr']
  have hlen' : ¬ (rest.set i b).length < b5 + 1 := by
    rw [List.length_set]
    omega
  rw [if_neg hlen']
  have hgd' : (rest.set i b).getD b5 0 = rest.getD b5 0 :=
    getD_set_ne rest i b5 b 0 (by omega)
  -- the two checksums differ
  have htk : (b0 :: b1 :: b2 :: b3 :: b4 :: b5 :: rest.set i b).take (6 + b5) =
      b0 :: b1 :: b2 :: b3 :: b4 :: b5 :: (rest.take b5).set i b := by
    rw [take_cons6_add, take_set_comm rest i b5 b hi]
  have htk0 : (b0 :: b1 :: b2 :: b3 :: b4 :: b5 :: rest).take (6 + b5) =
      b0 :: b1 :: b2 :: b3 :: b4 :: b5 :: rest.take b5 :=
    take_cons6_add b0 b1 b2 b3 b4 b5 rest b5
  have hitk : i < (rest.take b5).length := by
    simp only [List.length_take]
    omega
  have hsum : ((rest.take b5).set i b).sum + (rest.take b5).getD i 0 =
      (rest.take b5).sum + b :=
    sum_set_add_getD (rest.take b5) i b hitk
  have hx : (rest.take b5).getD i 0 = rest.getD i 0 :=
    getD_take_of_lt rest b5 i hi hir
  have hxlt : rest.getD i 0 < 256 := by
    rw [List.getD_eq_getElem _ _ hir]
    exact hbytes _ (by simp [List.getElem_mem hir])
  have hxne : b ≠ rest.getD i 0 := by
    rw [getD_cons6_add] at hne
    exact hne
  have hdiff :
      ((b0 :: b1 :: b2 :: b3 :: b4 :: b5 :: rest.set i b).take (6 + b5)).sum % 256 ≠
        rest.getD b5 0 := by
    rw [← h2]
    simp only [calculate_checksum, htk, htk0, List.sum_cons]
    rw [hx] at hsum
    omega
  rw [if_pos (by
    simp only [calculate_checksum, hgd']
    exact hdiff)]
  constructor
  · simp only [calculate_checksum, hgd']
  · exact hdiff

/-- C3 witness: the frame `55 AA 00 00 00 01 09 09` is accepted (payload
`[09]`, checksum `09`); replacing the single payload byte by `05` makes
the decoder report a checksum mismatch. -/
theorem payload_mutation_checksum_mismatch_witness :
    parse_tuya_packet (([0x55, 0xaa, 0, 0, 0, 1, 9, 9] : List Nat).set 6 5) =
      PacketResult.checksumMismatch
        (((([0x55, 0xaa, 0, 0, 0, 1, 9, 9] : List Nat).set 6 5).take (6 + 1)).sum % 256)
        9 (([0x55, 0xaa, 0, 0, 0, 1, 9, 9] : List Nat).set 6 5) ∧
    ((([0x55, 0xaa, 0, 0, 0, 1, 9, 9] : List Nat).set 6 5).take (6 + 1)).sum % 256 ≠ 9 :=
  payload_mutation_checksum_mismatch [0x55, 0xaa, 0, 0, 0, 1, 9, 9]
    0 0 1 [9] 9 [DPEntry.incompleteUnit [9]]
    (by
      rw [show ([0x55, 0xaa, 0, 0, 0, 1, 9, 9] : List Nat) =
          0x55 :: 0xaa :: 0 :: 0 :: 0 :: 1 :: [9, 9] from rfl,
        parse_tuya_packet_cons _ _ _ _ _ _ _ (by simp)]
      norm_num [calculate_checksum]
      simp [parse_data_units, parseLoop])
    0 (by decide) 5 (by decide) (by decide) (by decide)

/-! ### Data-unit parsing: step lemmas -/

lemma take4_shape (l : List Nat) (h : 4 ≤ l.length) :
    ∃ a b c d, l.take 4 = [a, b, c, d] := by
  match l with
  | [] => simp at h
  | [_] => simp at h
  | [_, _] => simp at h
  | [_, _, _] => simp at h
  | a :: b :: c :: d :: rest => exact ⟨a, b, c, d, rfl⟩

lemma parseLoop_end (data : List Nat) (offset : Nat) (h : data.length ≤ offset) :
    parseLoop data offset = [] := by
  rw [parseLoop, dif_neg (by omega)]

lemma parseLoop_header_trunc (data : List Nat) (offset : Nat)
    (h0 : offset < data.length) (h4 : data.length < offset + 4) :
    parseLoop data offset = [DPEntry.incompleteUnit (data.drop offset)] := by
  rw [parseLoop, dif_pos h0, if_pos h4]

lemma parseLoop_value_trunc (data : List Nat) (offset dp_id dp_type hi lo : Nat)
    (hh : (data.drop offset).take 4 = [dp_id, dp_type, hi, lo])
    (h4 : offset + 4 ≤ data.length)
    (hv : data.length < offset + 4 + (hi * 256 + lo)) :
    parseLoop data offset =
      [DPEntry.incompleteValue dp_id dp_type (hi * 256 + lo) (data.drop offset)] := by
  rw [parseLoop, dif_pos (by omega), if_neg (by omega), hh]
  show (if data.length < offset + 4 + (hi * 256 + lo) then _ else _) = _
  rw [if_pos hv]

lemma parseLoop_unit_step (data : List Nat) (offset dp_id dp_type hi lo : Nat)
    (hh : (data.drop offset).take 4 = [dp_id, dp_type, hi, lo])
    (hv : offset + 4 + (hi * 256 + lo) ≤ data.length) :
    parseLoop data offset =
      DPEntry.unit dp_id dp_type (hi * 256 + lo)
          (decode_dp_value dp_type (hi * 256 + lo)
            ((data.drop (offset + 4)).take (hi * 256 + lo)))
          ((data.drop (offset + 4)).take (hi * 256 + lo))
        :: parseLoop data (offset + 4 + (hi * 256 + lo)) := by
  rw [parseLoop, dif_pos (by omega), if_neg (by omega), hh]
  show (if data.length < offset + 4 + (hi * 256 + lo) then _ else _) = _
  rw [if_neg (by omega)]

/-- C4: inside any payload, a data unit whose type tag is 2 (Integer32)
and whose declared value length is not 4 is appended to the output as a
record whose decoded value is the invalid-length error variant carrying
the raw value bytes, and the loop is not aborted: the remaining output is
exactly the parse of the rest of the payload. -/
theorem int32_length_mismatch_nonfatal (data : List Nat)
    (offset dp_id hi lo : Nat)
    (hh : (data.drop offset).take 4 = [dp_id, 2, hi, lo])
    (hv : offset + 4 + (hi * 256 + lo) ≤ data.length)
    (hne : hi * 256 + lo ≠ 4) :
    parseLoop data offset =
      DPEntry.unit dp_id 2 (hi * 256 + lo)
          (DPValue.invalidLenValue (hi * 256 + lo)
            ((data.drop (offset + 4)).take (hi * 256 + lo)))
          ((data.drop (offset + 4)).take (hi * 256 + lo))
        :: parseLoop data (offset + 4 + (hi * 256 + lo)) := by
  rw [parseLoop_unit_step data offset dp_id 2 hi lo hh hv]
  rw [show decode_dp_value 2 (hi * 256 + lo)
      ((data.drop (offset + 4)).take (hi * 256 + lo)) =
      DPValue.invalidLenValue (hi * 256 + lo)
        ((data.drop (offset + 4)).take (hi * 256 + lo)) by
    simp [decode_dp_value, hne]]

/-- C4 witness: payload `01 02 0003 09 09 09 | 01 02 0004 0000007B`; the
first unit (Integer32, declared length 3) decodes to the invalid-length
error variant, and the following well-formed unit still decodes to the
integer 123. -/
theorem int32_length_mismatch_nonfatal_witness :
    parseLoop [1, 2, 0, 3, 9, 9, 9, 1, 2, 0, 4, 0, 0, 0, 123] 0 =
      DPEntry.unit 1 2 3 (DPValue.invalidLenValue 3 [9, 9, 9]) [9, 9, 9]
        :: parseLoop [1, 2, 0, 3, 9, 9, 9, 1, 2, 0, 4, 0, 0, 0, 123] 7 ∧
    parseLoop [1, 2, 0, 3, 9, 9, 9, 1, 2, 0, 4, 0, 0, 0, 123] 7 =
      [DPEntry.unit 1 2 4 (DPValue.intVal 123) [0, 0, 0, 123]] :=
  ⟨int32_length_mismatch_nonfatal [1, 2, 0, 3, 9, 9, 9, 1, 2, 0, 4, 0, 0, 0, 123]
      0 1 0 3 (by decide) (by decide) (by decide),
    by
      rw [parseLoop_unit_step [1, 2, 0, 3, 9, 9, 9, 1, 2, 0, 4, 0, 0, 0, 123]
        7 1 2 0 4 (by decide) (by decide)]
      rw [parseLoop_end _ 15 (by decide)]
      norm_num [decode_dp_value, int32BE]⟩

/-- C5: for every input and cursor position still inside the input, one
iteration of `parse_data_units`'s loop either stops with a single
terminal truncation record (fewer than 4 header bytes left, or fewer
value bytes left than declared), or emits one data-unit record and
continues at a cursor advanced by at least 4; together with the
well-founded definition of `parseLoop`, the function terminates and
returns a list on every input. -/
theorem parse_data_units_total_progress (data : List Nat) (offset : Nat)
    (h : offset < data.length) :
    (data.length < offset + 4 ∧
      parseLoop data offset = [DPEntry.incompleteUnit (data.drop offset)]) ∨
    (∃ dp_id dp_type hi lo,
      (data.drop offset).take 4 = [dp_id, dp_type, hi, lo] ∧
      ((data.length < offset + 4 + (hi * 256 + lo) ∧
        parseLoop data offset =
          [DPEntry.incompleteValue dp_id dp_type (hi * 256 + lo)
            (data.drop offset)]) ∨
       (offset + 4 + (hi * 256 + lo) ≤ data.length ∧
        offset + 4 ≤ offset + 4 + (hi * 256 + lo) ∧
        parseLoop data offset =
          DPEntry.unit dp_id dp_type (hi * 256 + lo)
              (decode_dp_value dp_type (hi * 256 + lo)
                ((data.drop (offset + 4)).take (hi * 256 + lo)))
              ((data.drop (offset + 4)).take (hi * 256 + lo))
            :: parseLoop data (offset + 4 + (hi * 256 + lo))))) := by
  by_cases h4 : data.length < offset + 4
  · exact Or.inl ⟨h4, parseLoop_header_trunc data offset h h4⟩
  · right
    obtain ⟨a, b, c, d, hh⟩ := take4_shape (data.drop offset)
      (by simp only [List.length_drop]; omega)
    refine ⟨a, b, c, d, hh, ?_⟩
    by_cases hv : data.length < offset + 4 + (c * 256 + d)
    · exact Or.inl ⟨hv, parseLoop_value_trunc data offset a b c d hh (by omega) hv⟩
    · exact Or.inr ⟨by omega, by omega,
        parseLoop_unit_step data offset a b c d hh (by omega)⟩

/-- C5 witness: the progress property applied to the concrete payload
`[5]`, which stops with a terminal incomplete-header record. -/
theorem parse_data_units_total_progress_witness :
    (([5] : List Nat).length < 0 + 4 ∧
      parseLoop [5] 0 = [DPEntry.incompleteUnit (([5] : List Nat).drop 0)]) ∨
    (∃ dp_id dp_type hi lo,
      (([5] : List Nat).drop 0).take 4 = [dp_id, dp_type, hi, lo] ∧
      ((([5] : List Nat).length < 0 + 4 + (hi * 256 + lo) ∧
        parseLoop [5] 0 =
          [DPEntry.incompleteValue dp_id dp_type (hi * 256 + lo)
            (([5] : List Nat).drop 0)]) ∨
       (0 + 4 + (hi * 256 + lo) ≤ ([5] : List Nat).length ∧
        0 + 4 ≤ 0 + 4 + (hi * 256 + lo) ∧
        parseLoop [5] 0 =
          DPEntry.unit dp_id dp_type (hi * 256 + lo)
              (decode_dp_value dp_type (hi * 256 + lo)
                ((([5] : List Nat).drop (0 + 4)).take (hi * 256 + lo)))
              ((([5] : List Nat).drop (0 + 4)).take (hi * 256 + lo))
            :: parseLoop [5] (0 + 4 + (hi * 256 + lo))))) :=
  parse_data_units_total_progress [5] 0 (by decide)

/-- C10: a data unit with declared value length 0 and a complete 4-byte
header is appended as a normal record with empty raw value, the cursor
advances by exactly 4 and parsing continues; type Raw (0) decodes the
empty value to the empty byte sequence and type Boolean (1) decodes it to
`false`. -/
theorem zero_length_unit_ok (data : List Nat) (offset dp_id dp_type : Nat)
    (h4 : offset + 4 ≤ data.length)
    (hh : (data.drop offset).take 4 = [dp_id, dp_type, 0, 0]) :
    parseLoop data offset =
      DPEntry.unit dp_id dp_type 0 (decode_dp_value dp_type 0 []) [] ::
        parseLoop data (offset + 4) ∧
    decode_dp_value 0 0 [] = DPValue.raw [] ∧
    decode_dp_value 1 0 [] = DPValue.boolean false := by
  refine ⟨?_, rfl, rfl⟩
  have h := parseLoop_unit_step data offset dp_id dp_type 0 0 hh (by omega)
  simpa using h

/-- C10 witness: the zero-length-unit step at a concrete payload holding
two zero-length units (types Raw and Boolean). -/
theorem zero_length_unit_ok_witness :
    (parseLoop [7, 0, 0, 0, 7, 1, 0, 0] 0 =
      DPEntry.unit 7 0 0 (decode_dp_value 0 0 []) [] ::
        parseLoop [7, 0, 0, 0, 7, 1, 0, 0] (0 + 4) ∧
      decode_dp_value 0 0 [] = DPValue.raw [] ∧
      decode_dp_value 1 0 [] = DPValue.boolean false) :=
  zero_length_unit_ok [7, 0, 0, 0, 7, 1, 0, 0] 0 7 0 (by decide) (by decide)

lemma parseLoop_shape (data : List Nat) (offset : Nat) :
    (parseLoop data offset).length ≤ (data.length - offset) / 4 + 1 ∧
    ∀ e ∈ (parseLoop data offset).dropLast, e.isUnit = true := by
  induction offset using parseLoop.induct data with
  | case1 x hx h4 =>
    rw [parseLoop_header_trunc data x hx h4]
    refine ⟨by simp, ?_⟩
    intro e he
    simp [List.dropLast_single] at he
  | case2 x hx h4 hnone =>
    exfalso
    obtain ⟨a, b, c, d, hh⟩ := take4_shape (data.drop x)
      (by simp only [List.length_drop]; omega)
    rw [hh] at hnone
    simp [unpack_BBH] at hnone
  | case3 x hx h4 dp_id dp_type dp_length hsome hlen =>
    rw [parseLoop, dif_pos hx, if_neg h4, hsome]
    dsimp only
    rw [if_pos hlen]
    refine ⟨by simp, ?_⟩
    intro e he
    simp [List.dropLast_single] at he
  | case4 x hx h4 dp_id dp_type dp_length hsome hlen ih =>
    rw [parseLoop, dif_pos hx, if_neg h4, hsome]
    dsimp only
    rw [if_neg hlen]
    obtain ⟨ih1, ih2⟩ := ih
    constructor
    · simp only [List.length_cons]
      omega
    · intro e he
      rcases htail : parseLoop data (x + 4 + dp_length) with _ | ⟨t0, ts⟩
      · rw [htail] at he
        simp [List.dropLast_single] at he
      · rw [htail] at he ih2
        rw [List.dropLast_cons₂] at he
        rcases List.mem_cons.mp he with rfl | hmem
        · rfl
        · exact ih2 e hmem
  | case5 x hx =>
    rw [parseLoop_end data x (by omega)]
    exact ⟨by simp, by intro e he; simp at he⟩

/-- C9: the list returned by `parse_data_units` has at most
`len(payload)/4 + 1` elements, and every element except possibly the last
is a decoded data-unit record — a top-level truncation error record can
occur only as the final element. -/
theorem parse_data_units_shape (data : List Nat) :
    (parse_data_units data).length ≤ data.length / 4 + 1 ∧
    ∀ e ∈ (parse_data_units data).dropLast, e.isUnit = true := by
  have h := parseLoop_shape data 0
  simpa [parse_data_units] using h

/-! ### Frame extraction -/

lemma findMarker_drop : ∀ (l : List Nat) (m : Nat),
    findMarker l = some m → findMarker (l.drop m) = some 0 := by
  intro l
  induction l with
  | nil => intro m h; simp [findMarker] at h
  | cons a t ih =>
    intro m h
    match t with
    | [] => simp [findMarker] at h
    | b :: rest =>
      rw [findMarker] at h
      split at h
      · rename_i hc
        simp only [Option.some.injEq] at h
        rw [← h, List.drop_zero, findMarker, if_pos hc]
      · simp only [Option.map_eq_some'] at h
        obtain ⟨m', hm', rfl⟩ := h
        simpa using ih m' hm'

lemma findMarker_take_none : ∀ (l : List Nat) (n : Nat),
    findMarker l = some n → findMarker (l.take n) = none := by
  intro l
  induction l with
  | nil => intro n h; simp [findMarker] at h
  | cons a t ih =>
    intro n h
    match t with
    | [] => simp [findMarker] at h
    | b :: rest =>
      rw [findMarker] at h
      split at h
      · simp only [Option.some.injEq] at h
        rw [← h, List.take_zero]
        simp [findMarker]
      · rename_i hc
        simp only [Option.map_eq_some'] at h
        obtain ⟨n', hn', rfl⟩ := h
        rw [List.take_succ_cons]
        cases n' with
        | zero =>
          rw [List.take_zero]
          simp [findMarker]
        | succ k =>
          rw [List.take_succ_cons, findMarker, if_neg hc]
          have ht := ih (k + 1) hn'
          rw [List.take_succ_cons] at ht
          rw [ht]
          rfl

lemma drainBuffer_no_marker (b : List Nat) (h : findMarker b = none) :
    drainBuffer b = ([], b) := by
  rw [drainBuffer, h]

lemma drainBuffer_last (b : List Nat) (m : Nat) (hm : findMarker b = some m)
    (hn : findMarker ((b.drop m).drop 2) = none) :
    drainBuffer b =
      ((if 0 < m then [StreamEvent.orphan (b.take m)] else []) ++
        [StreamEvent.frame (PACKET_MARKER ++ (b.drop m).drop 2)], []) := by
  rw [drainBuffer, hm]
  dsimp only
  rw [hn]

lemma drainBuffer_step (b : List Nat) (m n : Nat) (hm : findMarker b = some m)
    (hn : findMarker ((b.drop m).drop 2) = some n) :
    drainBuffer b =
      ((if 0 < m then [StreamEvent.orphan (b.take m)] else []) ++
        StreamEvent.frame (PACKET_MARKER ++ ((b.drop m).drop 2).take n) ::
          (drainBuffer (((b.drop m).drop 2).drop n)).1,
       (drainBuffer (((b.drop m).drop 2).drop n)).2) := by
  rw [drainBuffer, hm]
  dsimp only
  rw [hn]

lemma mem_candidateFrames (evs : List StreamEvent) (f : List Nat) :
    f ∈ candidateFrames evs ↔ StreamEvent.frame f ∈ evs := by
  constructor
  · intro h
    obtain ⟨e, he, hme⟩ := List.mem_filterMap.mp h
    cases e with
    | orphan o => simp at hme
    | frame g =>
      simp only [Option.some.injEq] at hme
      rw [← hme]
      exact he
  · intro h
    exact List.mem_filterMap.mpr ⟨StreamEvent.frame f, h, rfl⟩

lemma drainBuffer_orphan_split (buffer : List Nat) (m : Nat)
    (hm : findMarker buffer = some m) (hpos : 0 < m) :
    (drainBuffer buffer).1 =
      StreamEvent.orphan (buffer.take m) :: (drainBuffer (buffer.drop m)).1 := by
  have h0 : findMarker (buffer.drop m) = some 0 := findMarker_drop buffer m hm
  rcases hinner : findMarker ((buffer.drop m).drop 2) with _ | n
  · rw [drainBuffer_last buffer m hm hinner,
      drainBuffer_last (buffer.drop m) 0 h0 (by simpa using hinner)]
    simp [hpos]
  · rw [drainBuffer_step buffer m n hm hinner,
      drainBuffer_step (buffer.drop m) 0 n h0 (by simpa using hinner)]
    simp [hpos]

lemma drainBuffer_frames_shape (buffer : List Nat) :
    ∀ f, StreamEvent.frame f ∈ (drainBuffer buffer).1 →
      ∃ body, f = PACKET_MARKER ++ body ∧ findMarker body = none := by
  induction buffer using drainBuffer.induct with
  | case1 b hnone =>
    intro f hf
    rw [drainBuffer_no_marker b hnone] at hf
    simp at hf
  | case2 b m hm hn =>
    intro f hf
    rw [drainBuffer_last b m hm hn] at hf
    rcases List.mem_append.mp hf with hl | hr
    · split_ifs at hl with h
      · simp at hl
      · simp at hl
    · simp only [List.mem_singleton, StreamEvent.frame.injEq] at hr
      exact ⟨(b.drop m).drop 2, hr, hn⟩
  | case3 b m hm n hn ih =>
    intro f hf
    rw [drainBuffer_step b m n hm hn] at hf
    rcases List.mem_append.mp hf with hl | hr
    · split_ifs at hl with h
      · simp at hl
      · simp at hl
    · rcases List.mem_cons.mp hr with he | hmem
      · simp only [StreamEvent.frame.injEq] at he
        exact ⟨((b.drop m).drop 2).take n, he,
          findMarker_take_none ((b.drop m).drop 2) n hn⟩
      · exact ih f hmem

/-- C8: in the frame-extraction loop, the bytes before the first marker
occurrence are emitted only as an orphan diagnostic — the candidate
frames are computed entirely from the buffer from that marker onward —
and every candidate frame handed to `parse_tuya_packet` is the marker
followed by a marker-free body (the bytes strictly between that marker
occurrence and the next one, or the end of the buffer). -/
theorem orphan_bytes_never_in_candidates (buffer : List Nat) :
    (∀ m, findMarker buffer = some m → 0 < m →
      (drainBuffer buffer).1 =
        StreamEvent.orphan (buffer.take m) :: (drainBuffer (buffer.drop m)).1 ∧
      candidateFrames (drainBuffer buffer).1 =
        candidateFrames (drainBuffer (buffer.drop m)).1) ∧
    (∀ f ∈ candidateFrames (drainBuffer buffer).1,
      ∃ body, f = PACKET_MARKER ++ body ∧ findMarker body = none) := by
  constructor
  · intro m hm hpos
    have hsplit := drainBuffer_orphan_split buffer m hm hpos
    refine ⟨hsplit, ?_⟩
    rw [hsplit]
    simp [candidateFrames]
  · intro f hf
    exact drainBuffer_frames_shape buffer f ((mem_candidateFrames _ f).mp hf)

/-- C8 witness: the buffer `01 55 AA 02` splits into the orphan byte `01`
and the extraction of the rest, and the candidate frame `55 AA 02` is the
marker followed by a marker-free body. -/
theorem orphan_bytes_never_in_candidates_witness :
    ((drainBuffer [1, 0x55, 0xaa, 2]).1 =
      StreamEvent.orphan (([1, 0x55, 0xaa, 2] : List Nat).take 1) ::
        (drainBuffer (([1, 0x55, 0xaa, 2] : List Nat).drop 1)).1 ∧
      candidateFrames (drainBuffer [1, 0x55, 0xaa, 2]).1 =
        candidateFrames (drainBuffer (([1, 0x55, 0xaa, 2] : List Nat).drop 1)).1) ∧
    ∃ body, ([0x55, 0xaa, 2] : List Nat) = PACKET_MARKER ++ body ∧
      findMarker body = none :=
  ⟨(orphan_bytes_never_in_candidates [1, 0x55, 0xaa, 2]).1 1 (by decide) (by decide),
   (orphan_bytes_never_in_candidates [1, 0x55, 0xaa, 2]).2 [0x55, 0xaa, 2]
    (by
      rw [drainBuffer_last [1, 0x55, 0xaa, 2] 1 (by decide) (by decide)]
      simp [candidateFrames, PACKET_MARKER])⟩

end TuyaDump
